import Mathlib

/-
Verification of the notes-app client: viewport transform, drag controller,
note-store reconciliation and pending-update buffer.

The embedding is shallow.  Screen/world coordinates, zoom factors and pan
offsets are rationals (ℚ): the source computes with IEEE doubles, and every
property below is stated "within floating-point tolerance", which over ℚ is
exactness.  Timestamps (`created_at`, `edited_at`) are modelled by their
millisecond values (the source stores `new Date(ms).toISOString()` strings and
compares them with `Date.parse`, an order-isomorphism with the numbers).
JavaScript `Map` objects (keyed by note id) are modelled as insertion-ordered
association lists, which is exactly the iteration/`Array.from` semantics the
source relies on.
-/

namespace NotesApp

/-- Zoom configuration constants of the `ZoomProvider` (ZoomContext). -/
def MIN_ZOOM : ℚ := 1/10

/-- Upper zoom bound of the `ZoomProvider`. -/
def MAX_ZOOM : ℚ := 1

/-- Zoom increment used by the `zoomIn`/`zoomOut` buttons. -/
def ZOOM_STEP : ℚ := 15/100

/-- The viewport state held by the `ZoomProvider`: `zoom`, `panX`, `panY`. -/
structure Viewport where
  zoom : ℚ
  panX : ℚ
  panY : ℚ
deriving DecidableEq

/-- A point, used for both screen and world coordinates. -/
structure Point where
  x : ℚ
  y : ℚ
deriving DecidableEq

/-- The clamp `Math.max(MIN_ZOOM, Math.min(MAX_ZOOM, newZoom))` inside `setZoom`. -/
def clampZoom (newZoom : ℚ) : ℚ := max MIN_ZOOM (min MAX_ZOOM newZoom)

/-- ZoomContext `setZoom`: stores the clamped zoom. -/
def setZoom (v : Viewport) (newZoom : ℚ) : Viewport :=
  { v with zoom := clampZoom newZoom }

/-- ZoomContext `setPan`: stores the pan offset unclamped. -/
def setPan (v : Viewport) (x y : ℚ) : Viewport :=
  { v with panX := x, panY := y }

/-- ZoomContext `zoomIn`: `setZoom (zoom + ZOOM_STEP)`. -/
def zoomIn (v : Viewport) : Viewport := setZoom v (v.zoom + ZOOM_STEP)

/-- ZoomContext `zoomOut`: `setZoom (zoom - ZOOM_STEP)`. -/
def zoomOut (v : Viewport) : Viewport := setZoom v (v.zoom - ZOOM_STEP)

/-- ZoomContext `resetZoom`: `setZoom 0.5; setPan 0 0`. -/
def resetZoom (v : Viewport) : Viewport := setPan (setZoom v (1/2)) 0 0

/-- ZoomContext `screenToWorld`: `((screenX - panX) / zoom, (screenY - panY) / zoom)`. -/
def screenToWorld (v : Viewport) (screenX screenY : ℚ) : Point :=
  ⟨(screenX - v.panX) / v.zoom, (screenY - v.panY) / v.zoom⟩

/-- ZoomContext `worldToScreen`: `(worldX * zoom + panX, worldY * zoom + panY)`. -/
def worldToScreen (v : Viewport) (worldX worldY : ℚ) : Point :=
  ⟨worldX * v.zoom + v.panX, worldY * v.zoom + v.panY⟩

/-- The position fields of a note, the part of a note `fitToContent` reads. -/
structure NotePos where
  position_x : ℚ
  position_y : ℚ
deriving DecidableEq

/-- Lower edge of the bounding box in `fitToContent`:
`Math.min(...notes.map(n => n.position_x)) - padding` with `padding = 100`. -/
def fitMinX (n : NotePos) (rest : List NotePos) : ℚ :=
  rest.foldl (fun a m => min a m.position_x) n.position_x - 100

/-- Right edge of the bounding box in `fitToContent`:
`Math.max(...notes.map(n => n.position_x + noteWidth)) + padding`
with `noteWidth = 256`, `padding = 100`. -/
def fitMaxX (n : NotePos) (rest : List NotePos) : ℚ :=
  rest.foldl (fun a m => max a (m.position_x + 256)) (n.position_x + 256) + 100

/-- Top edge of the bounding box in `fitToContent`. -/
def fitMinY (n : NotePos) (rest : List NotePos) : ℚ :=
  rest.foldl (fun a m => min a m.position_y) n.position_y - 100

/-- Bottom edge of the bounding box in `fitToContent`, with `noteHeight = 192`. -/
def fitMaxY (n : NotePos) (rest : List NotePos) : ℚ :=
  rest.foldl (fun a m => max a (m.position_y + 192)) (n.position_y + 192) + 100

/-- The zoom `fitToContent` computes:
`Math.min(containerWidth/contentWidth, containerHeight/contentHeight, MAX_ZOOM)`. -/
def fitZoom (cw ch : ℚ) (n : NotePos) (rest : List NotePos) : ℚ :=
  min (min (cw / (fitMaxX n rest - fitMinX n rest))
           (ch / (fitMaxY n rest - fitMinY n rest))) MAX_ZOOM

/-- The pan x `fitToContent` computes:
`(containerWidth - contentWidth * newZoom) / 2 - minX * newZoom`. -/
def fitPanX (cw ch : ℚ) (n : NotePos) (rest : List NotePos) : ℚ :=
  (cw - (fitMaxX n rest - fitMinX n rest) * fitZoom cw ch n rest) / 2
    - fitMinX n rest * fitZoom cw ch n rest

/-- The pan y `fitToContent` computes. -/
def fitPanY (cw ch : ℚ) (n : NotePos) (rest : List NotePos) : ℚ :=
  (ch - (fitMaxY n rest - fitMinY n rest) * fitZoom cw ch n rest) / 2
    - fitMinY n rest * fitZoom cw ch n rest

/-- ZoomContext `fitToContent`: resets when the list is empty, otherwise applies
`setZoom` with the computed zoom and `setPan` with the centering pan. -/
def fitToContent (cw ch : ℚ) (v : Viewport) (notes : List NotePos) : Viewport :=
  match notes with
  | [] => resetZoom v
  | n :: rest => setPan (setZoom v (fitZoom cw ch n rest)) (fitPanX cw ch n rest) (fitPanY cw ch n rest)

/-- Page `handleCustomZoom` (wheel and trackpad-pinch zoom): clamps the
requested zoom with its own constants `Math.max(0.2, Math.min(5.0, zoom * scaleFactor))`,
computes the anchor-preserving pan for that value, then calls the ZoomContext
`setZoom` (which clamps again, to `[MIN_ZOOM, MAX_ZOOM]`) and `setPan`. -/
def handleCustomZoom (v : Viewport) (mouseX mouseY scaleFactor : ℚ) : Viewport :=
  setPan (setZoom v (max (2/10) (min 5 (v.zoom * scaleFactor))))
    (mouseX - (mouseX - v.panX) * (max (2/10) (min 5 (v.zoom * scaleFactor)) / v.zoom))
    (mouseY - (mouseY - v.panY) * (max (2/10) (min 5 (v.zoom * scaleFactor)) / v.zoom))

/-- Page `handleTouchMove` two-finger pinch: same shape as `handleCustomZoom`
but the requested zoom is `touchStartZoom * scale`. -/
def handlePinchZoom (v : Viewport) (mouseX mouseY touchStartZoom scaleRatio : ℚ) : Viewport :=
  setPan (setZoom v (max (2/10) (min 5 (touchStartZoom * scaleRatio))))
    (mouseX - (mouseX - v.panX) * (max (2/10) (min 5 (touchStartZoom * scaleRatio)) / v.zoom))
    (mouseY - (mouseY - v.panY) * (max (2/10) (min 5 (touchStartZoom * scaleRatio)) / v.zoom))

/-- Both clamp bounds of `clampZoom` hold unconditionally. -/
lemma clampZoom_bounds (z : ℚ) : MIN_ZOOM ≤ clampZoom z ∧ clampZoom z ≤ MAX_ZOOM := by
  refine ⟨le_max_left _ _, max_le ?_ (min_le_left _ _)⟩
  norm_num [MIN_ZOOM, MAX_ZOOM]

/-- C1: for every viewport whose zoom lies in the valid clamped range
`[MIN_ZOOM, MAX_ZOOM]` and any pan, `worldToScreen` applied to the result of
`screenToWorld (sx, sy)` gives back exactly `(sx, sy)`: the two coordinate
mappings are mutual inverses at any fixed viewport state. -/
theorem C1_coord_inverse (v : Viewport) (sx sy : ℚ)
    (hmin : MIN_ZOOM ≤ v.zoom) (hmax : v.zoom ≤ MAX_ZOOM) :
    worldToScreen v (screenToWorld v sx sy).x (screenToWorld v sx sy).y = ⟨sx, sy⟩ := by
  have hz : v.zoom ≠ 0 := by
    have h1 : (0 : ℚ) < MIN_ZOOM := by norm_num [MIN_ZOOM]
    exact ne_of_gt (lt_of_lt_of_le h1 hmin)
  simp only [worldToScreen, screenToWorld, Point.mk.injEq]
  constructor <;> field_simp

/-- Witness for C1 at the concrete viewport `(zoom, pan) = (1/2, (3, 4))` and
screen point `(10, 20)`. -/
theorem C1_coord_inverse_witness :
    (MIN_ZOOM ≤ (Viewport.mk (1/2) 3 4).zoom ∧ (Viewport.mk (1/2) 3 4).zoom ≤ MAX_ZOOM) ∧
    worldToScreen (Viewport.mk (1/2) 3 4)
      (screenToWorld (Viewport.mk (1/2) 3 4) 10 20).x
      (screenToWorld (Viewport.mk (1/2) 3 4) 10 20).y = ⟨10, 20⟩ :=
  ⟨⟨by norm_num [MIN_ZOOM], by norm_num [MAX_ZOOM]⟩,
    C1_coord_inverse (Viewport.mk (1/2) 3 4) 10 20
      (by norm_num [MIN_ZOOM]) (by norm_num [MAX_ZOOM])⟩

/-- C2: the wheel-zoom step breaks the zoom anchor invariance at the clamp
boundary.  Starting from the valid state `(zoom, pan) = (1, (0, 0))` and
applying the wheel-up step (`factor = 1.15`) anchored at the screen point
`(100, 100)`: `handleCustomZoom` computes the pan for the requested zoom
`1.15` (its own clamp range is `[0.2, 5]`), but `setZoom` stores the re-clamped
zoom `1`, so the world point under the anchor jumps from `(100, 100)` to
`(115, 115)` instead of staying fixed. -/
theorem C2_zoom_anchor_clamp_bug :
    (MIN_ZOOM ≤ (Viewport.mk 1 0 0).zoom ∧ (Viewport.mk 1 0 0).zoom ≤ MAX_ZOOM) ∧
    screenToWorld (Viewport.mk 1 0 0) 100 100 = ⟨100, 100⟩ ∧
    handleCustomZoom (Viewport.mk 1 0 0) 100 100 (23/20) = ⟨1, -15, -15⟩ ∧
    screenToWorld (handleCustomZoom (Viewport.mk 1 0 0) 100 100 (23/20)) 100 100 = ⟨115, 115⟩ ∧
    (⟨115, 115⟩ : Point) ≠ ⟨100, 100⟩ := by
  refine ⟨⟨by norm_num [MIN_ZOOM], by norm_num [MAX_ZOOM]⟩, ?_, ?_, ?_, ?_⟩
  · norm_num [screenToWorld]
  · norm_num [handleCustomZoom, setPan, setZoom, clampZoom, MIN_ZOOM, MAX_ZOOM, min_def, max_def]
  · norm_num [handleCustomZoom, setPan, setZoom, clampZoom, screenToWorld,
      MIN_ZOOM, MAX_ZOOM, min_def, max_def]
  · simp only [ne_eq, Point.mk.injEq, not_and]
    norm_num

/-- C7: every zoom request is silently clamped, never rejected: `setZoom`
stores exactly `max MIN_ZOOM (min MAX_ZOOM z)`, and after every viewport
mutation (`setZoom`, `zoomIn`, `zoomOut`, `resetZoom`, `fitToContent`, and the
wheel/pinch zoom handlers) the stored zoom lies within `[MIN_ZOOM, MAX_ZOOM]`. -/
theorem C7_zoom_always_clamped (v : Viewport) (z mx my factor startZoom scaleRatio cw ch : ℚ)
    (notes : List NotePos) :
    (setZoom v z).zoom = max MIN_ZOOM (min MAX_ZOOM z)
    ∧ (MIN_ZOOM ≤ (setZoom v z).zoom ∧ (setZoom v z).zoom ≤ MAX_ZOOM)
    ∧ (MIN_ZOOM ≤ (zoomIn v).zoom ∧ (zoomIn v).zoom ≤ MAX_ZOOM)
    ∧ (MIN_ZOOM ≤ (zoomOut v).zoom ∧ (zoomOut v).zoom ≤ MAX_ZOOM)
    ∧ (MIN_ZOOM ≤ (resetZoom v).zoom ∧ (resetZoom v).zoom ≤ MAX_ZOOM)
    ∧ (MIN_ZOOM ≤ (fitToContent cw ch v notes).zoom ∧ (fitToContent cw ch v notes).zoom ≤ MAX_ZOOM)
    ∧ (MIN_ZOOM ≤ (handleCustomZoom v mx my factor).zoom
        ∧ (handleCustomZoom v mx my factor).zoom ≤ MAX_ZOOM)
    ∧ (MIN_ZOOM ≤ (handlePinchZoom v mx my startZoom scaleRatio).zoom
        ∧ (handlePinchZoom v mx my startZoom scaleRatio).zoom ≤ MAX_ZOOM) := by
  refine ⟨rfl, clampZoom_bounds _, clampZoom_bounds _, clampZoom_bounds _, clampZoom_bounds _,
    ?_, clampZoom_bounds _, clampZoom_bounds _⟩
  cases notes with
  | nil => exact clampZoom_bounds _
  | cons n rest => exact clampZoom_bounds _

/-- The client-side note record (`NoteData` in the page component).  Timestamps
are modelled by their millisecond values, see the file header. -/
structure NoteData where
  id : String
  content : String
  color : String
  position_x : ℚ
  position_y : ℚ
  created_at : ℚ
  edited_at : ℚ
deriving DecidableEq

/-- One step of `ensureUniqueNotes`: the body of the `forEach` loop, which adds
the note to the (insertion-ordered) map only when its id is not yet present. -/
def dedupStep (acc : List NoteData) (n : NoteData) : List NoteData :=
  if acc.any (fun m => m.id = n.id) then acc else acc ++ [n]

/-- Page `ensureUniqueNotes`: deduplicate a note list by id keeping the first
occurrence, via a JavaScript `Map` iterated in insertion order. -/
def ensureUniqueNotes (l : List NoteData) : List NoteData := l.foldl dedupStep []

/-- Page `handleMouseDown` drag-start: the grab offset, in world coordinates,
from the note position to the pointer position
(`dragOffset = mouseWorldPos - note.position`). -/
def dragOffset (v : Viewport) (note : NoteData) (mouseX mouseY : ℚ) : Point :=
  ⟨(screenToWorld v mouseX mouseY).x - note.position_x,
   (screenToWorld v mouseX mouseY).y - note.position_y⟩

/-- Page `handleMouseMove` drag branch: the new note position
(`newPosition = mouseWorldPos - dragOffset`), re-derived from the absolute
pointer position. -/
def dragMovePosition (v : Viewport) (off : Point) (mouseX mouseY : ℚ) : Point :=
  ⟨(screenToWorld v mouseX mouseY).x - off.x,
   (screenToWorld v mouseX mouseY).y - off.y⟩

/-- Page `handleMouseMove` drag branch, effect on the note list: the `setNotes`
map that rewrites only the dragged note's position. -/
def handleMouseMoveDrag (notes : List NoteData) (draggedId : String) (v : Viewport)
    (off : Point) (mouseX mouseY : ℚ) : List NoteData :=
  notes.map fun note =>
    if note.id = draggedId then
      { note with position_x := (dragMovePosition v off mouseX mouseY).x,
                  position_y := (dragMovePosition v off mouseX mouseY).y }
    else note

/-- C3: drag exactness.  If a drag grabs a note whose position is `position0`
at a screen point with world image `W0` (the grab offset is computed once as
`W0 - position0`) and the pointer moves to a screen point with world image
`W1` under the same zoom and pan, the drag-move handler sets the position to
exactly `position0 + (W1 - W0)`; and the handler re-derives the position from
the absolute pointer position (applying a move after any intermediate move
gives the same list as applying it directly, no delta accumulation). -/
theorem C3_drag_exactness (v : Viewport) (notes : List NoteData) (note : NoteData)
    (draggedId : String) (s0x s0y sAx sAy s1x s1y : ℚ) :
    (dragMovePosition v (dragOffset v note s0x s0y) s1x s1y).x
      = note.position_x + ((screenToWorld v s1x s1y).x - (screenToWorld v s0x s0y).x)
    ∧ (dragMovePosition v (dragOffset v note s0x s0y) s1x s1y).y
      = note.position_y + ((screenToWorld v s1x s1y).y - (screenToWorld v s0x s0y).y)
    ∧ handleMouseMoveDrag
        (handleMouseMoveDrag notes draggedId v (dragOffset v note s0x s0y) sAx sAy)
        draggedId v (dragOffset v note s0x s0y) s1x s1y
      = handleMouseMoveDrag notes draggedId v (dragOffset v note s0x s0y) s1x s1y := by
  refine ⟨?_, ?_, ?_⟩
  · simp [dragMovePosition, dragOffset]; ring
  · simp [dragMovePosition, dragOffset]; ring
  · unfold handleMouseMoveDrag
    rw [List.map_map]
    refine List.map_congr_left fun n _ => ?_
    by_cases h : n.id = draggedId <;> simp [Function.comp, h]

/-- Helper: `find?` distributes over append, first list first. -/
lemma find?_append {α : Type _} (l1 l2 : List α) (p : α → Bool) :
    (l1 ++ l2).find? p = (l1.find? p).orElse fun _ => l2.find? p := by
  induction l1 with
  | nil => cases h : l2.find? p <;> simp [Option.orElse, h]
  | cons a l ih =>
    by_cases h : p a = true
    · simp [List.find?_cons, h, Option.orElse]
    · simp only [List.cons_append, List.find?_cons]
      simp only [Bool.not_eq_true] at h
      simp [h, ih]

/-- Helper: the dedup fold keeps the id list duplicate-free. -/
lemma dedup_foldl_nodup (l : List NoteData) :
    ∀ acc : List NoteData, (acc.map NoteData.id).Nodup →
      ((l.foldl dedupStep acc).map NoteData.id).Nodup := by
  induction l with
  | nil => intro acc h; simpa using h
  | cons n l ih =>
    intro acc h
    rw [List.foldl_cons]
    apply ih
    by_cases hany : acc.any (fun m => m.id = n.id) = true
    · simpa [dedupStep, hany] using h
    · have hnotin : n.id ∉ acc.map NoteData.id := by
        intro hmem
        apply hany
        rw [List.any_eq_true]
        obtain ⟨m, hm, hmid⟩ := List.mem_map.mp hmem
        exact ⟨m, hm, by simp [hmid]⟩
      simp only [Bool.not_eq_true] at hany
      simp [dedupStep, hany, List.nodup_append, h, hnotin]

/-- Helper: `find?` through the dedup fold equals `find?` on the accumulator,
falling back to `find?` on the remaining input: the first occurrence wins. -/
lemma dedup_foldl_find? (l : List NoteData) (i : String) :
    ∀ acc : List NoteData,
      (l.foldl dedupStep acc).find? (fun n => n.id = i)
        = (acc.find? (fun n => n.id = i)).orElse fun _ => l.find? (fun n => n.id = i) := by
  induction l with
  | nil =>
    intro acc
    cases h : acc.find? (fun n => n.id = i) <;> simp [Option.orElse, h]
  | cons n l ih =>
    intro acc
    rw [List.foldl_cons, ih]
    by_cases hany : acc.any (fun m => m.id = n.id) = true
    · have hstep : dedupStep acc n = acc := by simp [dedupStep, hany]
      rw [hstep]
      by_cases hpn : n.id = i
      · obtain ⟨m, hm, hmid⟩ := List.any_eq_true.mp hany
        have hmid' : m.id = n.id := by simpa using hmid
        have : (acc.find? (fun n => n.id = i)).isSome := by
          rw [List.find?_isSome]
          exact ⟨m, hm, by simp [hmid', hpn]⟩
        obtain ⟨m', hm'⟩ := Option.isSome_iff_exists.mp this
        simp [hm', Option.orElse]
      · simp [List.find?_cons, hpn]
    · have hstep : dedupStep acc n = acc ++ [n] := by simp [dedupStep, hany]
      rw [hstep, find?_append]
      cases hacc : acc.find? (fun n => n.id = i) with
      | some m => simp [Option.orElse]
      | none =>
        by_cases hpn : n.id = i
        · simp [Option.orElse, List.find?_cons, hpn]
        · simp [Option.orElse, List.find?_cons, hpn]

/-- Helper: in a list whose image under `f` has no duplicates, filtering for
the key of a member yields exactly that member. -/
lemma filter_eq_singleton_of_nodup_map {α β : Type _} [DecidableEq β] (f : α → β)
    (l : List α) (hl : (l.map f).Nodup) (m : α) (hm : m ∈ l) :
    l.filter (fun y => f y = f m) = [m] := by
  induction l with
  | nil => cases hm
  | cons a l ih =>
    rw [List.map_cons, List.nodup_cons] at hl
    rcases List.mem_cons.mp hm with rfl | hm'
    · have hnone : ∀ y ∈ l, ¬(f y = f m) := by
        intro y hy heq
        exact hl.1 (heq ▸ List.mem_map_of_mem f hy)
      rw [List.filter_cons_of_pos (by simp)]
      congr 1
      rw [List.filter_eq_nil_iff]
      intro y hy
      simpa using hnone y hy
    · have hne : ¬(f a = f m) := by
        intro heq
        exact hl.1 (heq ▸ List.mem_map_of_mem f hm')
      rw [List.filter_cons_of_neg (by simpa using hne)]
      exact ih hl.2 hm'

/-- C4: merging any note list into the store via `ensureUniqueNotes` leaves at
most one entry per id (the id list of the result has no duplicates), keeps the
first occurrence in input order (lookup by any id agrees with lookup in the
input list), and for every note of the input the result holds exactly one
entry with its id — in particular a list containing an id twice yields exactly
one entry for it. -/
theorem C4_dedup_by_id (l : List NoteData) :
    ((ensureUniqueNotes l).map NoteData.id).Nodup
    ∧ (∀ i : String,
        (ensureUniqueNotes l).find? (fun n => n.id = i) = l.find? (fun n => n.id = i))
    ∧ ∀ n ∈ l, ((ensureUniqueNotes l).filter (fun m => m.id = n.id)).length = 1 := by
  have hnodup : ((ensureUniqueNotes l).map NoteData.id).Nodup :=
    dedup_foldl_nodup l [] (by simp)
  have hfind : ∀ i : String,
      (ensureUniqueNotes l).find? (fun n => n.id = i) = l.find? (fun n => n.id = i) := by
    intro i
    have := dedup_foldl_find? l i []
    simpa [ensureUniqueNotes, Option.orElse] using this
  refine ⟨hnodup, hfind, ?_⟩
  intro n hn
  have hsome : (l.find? (fun m => m.id = n.id)).isSome := by
    rw [List.find?_isSome]
    exact ⟨n, hn, by simp⟩
  obtain ⟨m0, hm0⟩ := Option.isSome_iff_exists.mp hsome
  have hm0find : (ensureUniqueNotes l).find? (fun m => m.id = n.id) = some m0 :=
    (hfind n.id).trans hm0
  have hm0mem : m0 ∈ ensureUniqueNotes l := List.mem_of_find?_eq_some hm0find
  have hm0id : m0.id = n.id := by
    have := List.find?_some hm0find
    simpa using this
  have : (ensureUniqueNotes l).filter (fun m => m.id = n.id) = [m0] := by
    rw [← hm0id]
    exact filter_eq_singleton_of_nodup_map NoteData.id (ensureUniqueNotes l) hnodup m0 hm0mem
  rw [this]
  rfl

/-- A partial note record, `Partial<NoteData>` as the page uses it: the
payloads of `updateNoteInDatabase`, the pending-update buffer and `{...note,
...updates}` merges.  A `none` field is an absent key. -/
structure PartialNote where
  content : Option String
  color : Option String
  position_x : Option ℚ
  position_y : Option ℚ
  edited_at : Option ℚ
deriving DecidableEq

/-- JavaScript object spread `{...first, ...second}` on partial records: every
key present in `second` wins, absent keys fall back to `first`. -/
def mergePartial (first second : PartialNote) : PartialNote :=
  ⟨second.content <|> first.content, second.color <|> first.color,
   second.position_x <|> first.position_x, second.position_y <|> first.position_y,
   second.edited_at <|> first.edited_at⟩

/-- The drag-release payload built in `handleMouseUp`:
`{ position_x: note.position_x, position_y: note.position_y }`. -/
def posUpdate (x y : ℚ) : PartialNote := ⟨none, none, some x, some y, none⟩

/-- JavaScript `Map.set` on an insertion-ordered association list: replace the
entry in place when the key is present, append otherwise.  This is the
operation `handleMouseUp` applies to the pending-update buffer while offline. -/
def mapSet (buf : List (String × PartialNote)) (k : String) (v : PartialNote) :
    List (String × PartialNote) :=
  if buf.any (fun p => p.1 = k) then
    buf.map (fun p => if p.1 = k then (k, v) else p)
  else buf ++ [(k, v)]

/-- Helper: `mapSet` keeps the key list duplicate-free. -/
lemma mapSet_keys_nodup (buf : List (String × PartialNote)) (k : String) (v : PartialNote)
    (h : (buf.map Prod.fst).Nodup) : ((mapSet buf k v).map Prod.fst).Nodup := by
  by_cases hany : buf.any (fun p => p.1 = k) = true
  · have hkeys : (buf.map (fun p => if p.1 = k then (k, v) else p)).map Prod.fst
        = buf.map Prod.fst := by
      rw [List.map_map]
      refine List.map_congr_left fun p _ => ?_
      by_cases hp : p.1 = k <;> simp [Function.comp, hp]
    simpa [mapSet, hany, hkeys] using h
  · have hnotin : k ∉ buf.map Prod.fst := by
      intro hmem
      apply hany
      rw [List.any_eq_true]
      obtain ⟨p, hp, hpk⟩ := List.mem_map.mp hmem
      exact ⟨p, hp, by simp [hpk]⟩
    simp only [Bool.not_eq_true] at hany
    simp [mapSet, hany, List.nodup_append, h, hnotin]

/-- Helper: after `mapSet buf k v` on a buffer with duplicate-free keys, the
entries with key `k` are exactly `[(k, v)]`. -/
lemma mapSet_filter_key (buf : List (String × PartialNote)) (k : String) (v : PartialNote)
    (h : (buf.map Prod.fst).Nodup) :
    (mapSet buf k v).filter (fun p => p.1 = k) = [(k, v)] := by
  by_cases hany : buf.any (fun p => p.1 = k) = true
  · obtain ⟨p0, hp0, hp0k⟩ := List.any_eq_true.mp hany
    have hp0k' : p0.1 = k := by simpa using hp0k
    rw [mapSet, if_pos hany, List.filter_map]
    have hpred : buf.filter ((fun p : String × PartialNote => decide (p.1 = k)) ∘
        (fun p => if p.1 = k then (k, v) else p)) = buf.filter (fun p => p.1 = k) := by
      refine List.filter_congr fun p _ => ?_
      by_cases hp : p.1 = k <;> simp [Function.comp, hp]
    rw [hpred]
    have : buf.filter (fun p => p.1 = k) = [p0] := by
      rw [← hp0k']
      exact filter_eq_singleton_of_nodup_map Prod.fst buf h p0 hp0
    rw [this]
    simp [hp0k']
  · have hnone : ∀ p ∈ buf, ¬(p.1 = k) := by
      intro p hp hpk
      exact hany (List.any_eq_true.mpr ⟨p, hp, by simp [hpk]⟩)
    simp only [Bool.not_eq_true] at hany
    rw [mapSet, if_neg (by simp [hany]), List.filter_append]
    have hbuf : buf.filter (fun p => p.1 = k) = [] := by
      rw [List.filter_eq_nil_iff]
      intro p hp
      simpa using hnone p hp
    simp [hbuf]

/-- C5: last-write-wins pending buffer.  Committing two successive drag
releases for the same note id into a pending buffer with duplicate-free keys
leaves exactly one entry for that id, holding the second payload — which
equals the second update's fields merged over the first, since both drag
payloads carry the same field set. -/
theorem C5_pending_last_write_wins (buf : List (String × PartialNote)) (noteId : String)
    (x1 y1 x2 y2 : ℚ) (h : (buf.map Prod.fst).Nodup) :
    (mapSet (mapSet buf noteId (posUpdate x1 y1)) noteId (posUpdate x2 y2)).filter
        (fun p => p.1 = noteId) = [(noteId, posUpdate x2 y2)]
    ∧ mergePartial (posUpdate x1 y1) (posUpdate x2 y2) = posUpdate x2 y2 :=
  ⟨mapSet_filter_key _ _ _ (mapSet_keys_nodup buf noteId (posUpdate x1 y1) h), rfl⟩

/-- Witness for C5: two drag commits for note id `"a"` into the empty buffer. -/
theorem C5_pending_last_write_wins_witness :
    ((([] : List (String × PartialNote)).map Prod.fst).Nodup)
    ∧ ((mapSet (mapSet [] "a" (posUpdate 1 2)) "a" (posUpdate 3 4)).filter
          (fun p => p.1 = "a") = [("a", posUpdate 3 4)]
        ∧ mergePartial (posUpdate 1 2) (posUpdate 3 4) = posUpdate 3 4) :=
  ⟨by simp, C5_pending_last_write_wins [] "a" 1 2 3 4 (by simp)⟩

/-- JavaScript spread `{...note, ...updates}` in `updateNoteInDatabase`:
fields present in the update payload override, the rest (including `id` and
`created_at`, which no payload carries) stay. -/
def mergeNoteData (n : NoteData) (u : PartialNote) : NoteData :=
  { id := n.id
    content := u.content.getD n.content
    color := u.color.getD n.color
    position_x := u.position_x.getD n.position_x
    position_y := u.position_y.getD n.position_y
    created_at := n.created_at
    edited_at := u.edited_at.getD n.edited_at }

/-- Page `updateNoteInDatabase`, success path, effect on the local list: the
`setNotes` map `note.id === noteId ? {...note, ...updates} : note`. -/
def applyNoteUpdate (notes : List NoteData) (noteId : String) (u : PartialNote) :
    List NoteData :=
  notes.map fun n => if n.id = noteId then mergeNoteData n u else n

/-- Page `deleteNote`, success path, effect on the local list: the `setNotes`
filter `note.id !== noteId`. -/
def deleteNoteLocal (notes : List NoteData) (noteId : String) : List NoteData :=
  notes.filter fun n => n.id ≠ noteId

/-- C10: frame property of the two store mutations.  A successful update
keeps the list length, leaves every note with a different id untouched,
rewrites a matching note to the merge of the payload over it — a merge that
never changes `id` or `created_at` and keeps every field whose payload key is
absent.  A successful delete yields a sublist containing exactly the notes
whose id differs. -/
theorem C10_update_delete_frame (notes : List NoteData) (noteId : String) (u : PartialNote) :
    (applyNoteUpdate notes noteId u).length = notes.length
    ∧ (∀ n ∈ notes, n.id ≠ noteId → n ∈ applyNoteUpdate notes noteId u)
    ∧ (∀ n ∈ notes, n.id = noteId → mergeNoteData n u ∈ applyNoteUpdate notes noteId u)
    ∧ (∀ n : NoteData, (mergeNoteData n u).id = n.id
        ∧ (mergeNoteData n u).created_at = n.created_at
        ∧ (u.content = none → (mergeNoteData n u).content = n.content)
        ∧ (u.color = none → (mergeNoteData n u).color = n.color)
        ∧ (u.position_x = none → (mergeNoteData n u).position_x = n.position_x)
        ∧ (u.position_y = none → (mergeNoteData n u).position_y = n.position_y)
        ∧ (u.edited_at = none → (mergeNoteData n u).edited_at = n.edited_at))
    ∧ (deleteNoteLocal notes noteId).Sublist notes
    ∧ ∀ m : NoteData, m ∈ deleteNoteLocal notes noteId ↔ (m ∈ notes ∧ m.id ≠ noteId) := by
  refine ⟨List.length_map _ _, ?_, ?_, ?_, List.filter_sublist _, ?_⟩
  · intro n hn hne
    exact List.mem_map.mpr ⟨n, hn, by simp [hne]⟩
  · intro n hn heq
    exact List.mem_map.mpr ⟨n, hn, by simp [heq]⟩
  · intro n
    refine ⟨rfl, rfl, ?_, ?_, ?_, ?_, ?_⟩ <;> intro h <;> simp [mergeNoteData, h]
  · intro m
    simp [deleteNoteLocal, List.mem_filter]

/-- Stable insertion into a list already sorted ascending by `created_at`: the
element goes after every element whose key is not larger.  Together with the
fold below this models the stable ascending `Array.prototype.sort` by
`Date.parse(created_at)` used on snapshots. -/
def insertByCreated (x : NoteData) : List NoteData → List NoteData
  | [] => [x]
  | y :: ys => if y.created_at ≤ x.created_at then y :: insertByCreated x ys else x :: y :: ys

/-- The stable ascending sort by `created_at` applied to a snapshot before it
becomes the new note list. -/
def sortByCreated (l : List NoteData) : List NoteData :=
  l.foldl (fun acc x => insertByCreated x acc) []

/-- The client state the realtime subscription callback touches: the note
list, the id of the note under a local drag (if any), and the connectivity
flag. -/
structure ClientView where
  notes : List NoteData
  isDragging : Option String
  isConnected : Bool
deriving DecidableEq

/-- Page `setupRealtimeSubscription`, snapshot callback: marks the client
connected and replaces the whole note list with the deduplicated, sorted
snapshot.  The callback never consults `isDragging`. -/
def subscriptionHandler (st : ClientView) (snapshot : List NoteData) : ClientView :=
  { st with isConnected := true, notes := ensureUniqueNotes (sortByCreated snapshot) }

/-- C8 as amended: the snapshot callback applies the remote state
unconditionally.  The resulting note list is the deduplicated sorted snapshot,
identical for any two prior client states — in particular independent of any
active drag — and lookup of every id, the dragged one included, returns the
remote record. -/
theorem C8_remote_update_unconditional (st1 st2 : ClientView) (snapshot : List NoteData) :
    (subscriptionHandler st1 snapshot).notes = ensureUniqueNotes (sortByCreated snapshot)
    ∧ (subscriptionHandler st1 snapshot).notes = (subscriptionHandler st2 snapshot).notes
    ∧ (subscriptionHandler st1 snapshot).isConnected = true
    ∧ ∀ i : String,
        (subscriptionHandler st1 snapshot).notes.find? (fun n => n.id = i)
          = (sortByCreated snapshot).find? (fun n => n.id = i) := by
  refine ⟨rfl, rfl, rfl, fun i => ?_⟩
  have := dedup_foldl_find? (sortByCreated snapshot) i []
  simpa [subscriptionHandler, ensureUniqueNotes, Option.orElse] using this

/-- C8, counterexample to the claim as stated: with note `"a"` at position
`(0, 0)` under an active local drag (`isDragging = some "a"`), a remote
snapshot that carries `"a"` at `(5, 5)` moves the stored position to `5`
immediately — the remote update is not deferred while the drag is active. -/
theorem C8_drag_deferral_cex :
    (ClientView.mk [⟨"a", "", "blue", 0, 0, 0, 0⟩] (some "a") true).isDragging = some "a"
    ∧ ((ClientView.mk [⟨"a", "", "blue", 0, 0, 0, 0⟩] (some "a") true).notes.find?
        (fun n => n.id = "a")).map NoteData.position_x = some 0
    ∧ ((subscriptionHandler (ClientView.mk [⟨"a", "", "blue", 0, 0, 0, 0⟩] (some "a") true)
          [⟨"a", "", "blue", 5, 5, 0, 0⟩]).notes.find?
        (fun n => n.id = "a")).map NoteData.position_x = some 5
    ∧ some (5 : ℚ) ≠ some (0 : ℚ) := by
  refine ⟨rfl, ?_, ?_, by norm_num⟩
  · simp [List.find?_cons]
  · simp [subscriptionHandler, sortByCreated, insertByCreated, ensureUniqueNotes,
      dedupStep, List.find?_cons]

/-- One observable effect of a page handler, in program order: a network write
(`update(ref(db, ...))`) or a local note-list write (`setNotes`). -/
inductive Effect where
  | netUpdate (noteId : String) (fields : PartialNote)
  | storeWrite (noteId : String) (fields : PartialNote)
deriving DecidableEq

/-- Tests whether an effect is a local note-list write. -/
def Effect.isStoreWrite : Effect → Bool
  | .storeWrite _ _ => true
  | .netUpdate _ _ => false

/-- Tests whether an effect is a network write. -/
def Effect.isNetUpdate : Effect → Bool
  | .netUpdate _ _ => true
  | .storeWrite _ _ => false

/-- Effect trace of `updateNoteInDatabase` (success path): the code first
awaits `update(ref(db, notes/noteId), updates)` and only then calls
`setNotes`, so the network write precedes the local write. -/
def updateNoteInDatabaseEffects (noteId : String) (u : PartialNote) : List Effect :=
  [Effect.netUpdate noteId u, Effect.storeWrite noteId u]

/-- Effect trace of the `handleMouseMove` drag branch: a single local
note-list write, no network traffic. -/
def handleMouseMoveDragEffects (noteId : String) (x y : ℚ) : List Effect :=
  [Effect.storeWrite noteId (posUpdate x y)]

/-- Decides the claim's ordering: every local note-list write occurs before
every network write in the trace (no store write at or after a net update). -/
def localBeforeNetworkB : List Effect → Bool
  | [] => true
  | e :: rest =>
      (!e.isNetUpdate || rest.all fun e2 => !e2.isStoreWrite) && localBeforeNetworkB rest

/-- Decides the amended ordering: every network write precedes every local
note-list write. -/
def netBeforeStoreB : List Effect → Bool
  | [] => true
  | e :: rest =>
      (!e.isStoreWrite || rest.all fun e2 => !e2.isNetUpdate) && netBeforeStoreB rest

/-- Decides that the trace carries no network effect at all. -/
def noNetworkEffect (t : List Effect) : Bool := t.all fun e => !e.isNetUpdate

/-- C9, counterexample to the claim as stated: in the effect trace of
`updateNoteInDatabase` for any concrete payload, the local note-list write
does not precede the network request — the request is issued first. -/
theorem C9_local_before_network_cex :
    localBeforeNetworkB (updateNoteInDatabaseEffects "a" (posUpdate 1 2)) = false := rfl

/-- C9 as amended: for the mutations routed through `updateNoteInDatabase`
(position commit, content change, color change) the network request is issued
before the local note-list update, which is applied only after the request
succeeds; only the per-move drag mutation updates the local list with no
network request at all. -/
theorem C9_network_precedes_local (noteId : String) (u : PartialNote) (x y : ℚ) :
    netBeforeStoreB (updateNoteInDatabaseEffects noteId u) = true
    ∧ localBeforeNetworkB (updateNoteInDatabaseEffects noteId u) = false
    ∧ (updateNoteInDatabaseEffects noteId u).head? = some (Effect.netUpdate noteId u)
    ∧ noNetworkEffect (handleMouseMoveDragEffects noteId x y) = true
    ∧ localBeforeNetworkB (handleMouseMoveDragEffects noteId x y) = true
    ∧ handleMouseMoveDragEffects noteId x y = [Effect.storeWrite noteId (posUpdate x y)] :=
  ⟨rfl, rfl, rfl, rfl, rfl, rfl⟩

/-- Helper: a `Math.min` fold is bounded by its initial value. -/
lemma foldl_min_le_init {α : Type _} (f : α → ℚ) (a : ℚ) (l : List α) :
    l.foldl (fun b m => min b (f m)) a ≤ a := by
  induction l generalizing a with
  | nil => exact le_refl a
  | cons x xs ih => exact le_trans (ih (min a (f x))) (min_le_left _ _)

/-- Helper: a `Math.min` fold is bounded by every list element's value. -/
lemma foldl_min_le_mem {α : Type _} (f : α → ℚ) (x : α) :
    ∀ (l : List α) (a : ℚ), x ∈ l → l.foldl (fun b m => min b (f m)) a ≤ f x := by
  intro l
  induction l with
  | nil => intro a hx; cases hx
  | cons y ys ih =>
    intro a hx
    rcases List.mem_cons.mp hx with rfl | h
    · exact le_trans (foldl_min_le_init f (min a (f x)) ys) (min_le_right _ _)
    · exact ih (min a (f y)) h

/-- Helper: a `Math.max` fold dominates its initial value. -/
lemma le_foldl_max_init {α : Type _} (f : α → ℚ) (a : ℚ) (l : List α) :
    a ≤ l.foldl (fun b m => max b (f m)) a := by
  induction l generalizing a with
  | nil => exact le_refl a
  | cons x xs ih => exact le_trans (le_max_left _ _) (ih (max a (f x)))

/-- Helper: a `Math.max` fold dominates every list element's value. -/
lemma le_foldl_max_mem {α : Type _} (f : α → ℚ) (x : α) :
    ∀ (l : List α) (a : ℚ), x ∈ l → f x ≤ l.foldl (fun b m => max b (f m)) a := by
  intro l
  induction l with
  | nil => intro a hx; cases hx
  | cons y ys ih =>
    intro a hx
    rcases List.mem_cons.mp hx with rfl | h
    · exact le_trans (le_max_right _ _) (le_foldl_max_init f (max a (f x)) ys)
    · exact ih (max a (f y)) h

/-- What C6 asserts of a nonempty `fitToContent` call: the stored zoom is the
computed one and at most `MAX_ZOOM`, the padded bounding box maps inside the
container, it is centered (equal margins on each axis), and every note
rectangle maps inside the container. -/
def FitsAndCenters (cw ch : ℚ) (v : Viewport) (n : NotePos) (rest : List NotePos) : Prop :=
  (fitToContent cw ch v (n :: rest)).zoom = fitZoom cw ch n rest
  ∧ (fitToContent cw ch v (n :: rest)).zoom ≤ MAX_ZOOM
  ∧ 0 ≤ (worldToScreen (fitToContent cw ch v (n :: rest)) (fitMinX n rest) (fitMinY n rest)).x
  ∧ 0 ≤ (worldToScreen (fitToContent cw ch v (n :: rest)) (fitMinX n rest) (fitMinY n rest)).y
  ∧ (worldToScreen (fitToContent cw ch v (n :: rest)) (fitMaxX n rest) (fitMaxY n rest)).x ≤ cw
  ∧ (worldToScreen (fitToContent cw ch v (n :: rest)) (fitMaxX n rest) (fitMaxY n rest)).y ≤ ch
  ∧ (worldToScreen (fitToContent cw ch v (n :: rest)) (fitMinX n rest) (fitMinY n rest)).x
      + (worldToScreen (fitToContent cw ch v (n :: rest)) (fitMaxX n rest) (fitMaxY n rest)).x
      = cw
  ∧ (worldToScreen (fitToContent cw ch v (n :: rest)) (fitMinX n rest) (fitMinY n rest)).y
      + (worldToScreen (fitToContent cw ch v (n :: rest)) (fitMaxX n rest) (fitMaxY n rest)).y
      = ch
  ∧ ∀ m ∈ n :: rest,
      0 ≤ (worldToScreen (fitToContent cw ch v (n :: rest)) m.position_x m.position_y).x
      ∧ 0 ≤ (worldToScreen (fitToContent cw ch v (n :: rest)) m.position_x m.position_y).y
      ∧ (worldToScreen (fitToContent cw ch v (n :: rest))
          (m.position_x + 256) (m.position_y + 192)).x ≤ cw
      ∧ (worldToScreen (fitToContent cw ch v (n :: rest))
          (m.position_x + 256) (m.position_y + 192)).y ≤ ch

/-- C6 as amended: for a nonempty note list, provided the computed zoom
`min(cw/boxWidth, ch/boxHeight, MAX_ZOOM)` is not below `MIN_ZOOM` (so the
clamp inside `setZoom` is inactive), `fitToContent` stores exactly that zoom,
it is at most `MAX_ZOOM`, the padded bounding box and every note rectangle fit
inside the container, and the pan centers the box; for an empty list it
degrades to the default reset. -/
theorem C6_fit_to_content (cw ch : ℚ) (v : Viewport) (n : NotePos) (rest : List NotePos)
    (hmin : MIN_ZOOM ≤ fitZoom cw ch n rest) :
    FitsAndCenters cw ch v n rest ∧ fitToContent cw ch v [] = resetZoom v := by
  have hzpos : 0 < fitZoom cw ch n rest :=
    lt_of_lt_of_le (by norm_num [MIN_ZOOM]) hmin
  have hzmax : fitZoom cw ch n rest ≤ MAX_ZOOM := min_le_right _ _
  have hzoom : (fitToContent cw ch v (n :: rest)).zoom = fitZoom cw ch n rest := by
    show clampZoom (fitZoom cw ch n rest) = fitZoom cw ch n rest
    rw [clampZoom, min_eq_right hzmax, max_eq_right hmin]
  set z := fitZoom cw ch n rest with hz
  -- bounding box facts
  have hminX_init : fitMinX n rest ≤ n.position_x - 100 := by
    have := foldl_min_le_init (fun m : NotePos => m.position_x) n.position_x rest
    simp only [fitMinX]
    linarith
  have hmaxX_init : n.position_x + 256 + 100 ≤ fitMaxX n rest := by
    have := le_foldl_max_init (fun m : NotePos => m.position_x + 256) (n.position_x + 256) rest
    simp only [fitMaxX]
    linarith
  have hminY_init : fitMinY n rest ≤ n.position_y - 100 := by
    have := foldl_min_le_init (fun m : NotePos => m.position_y) n.position_y rest
    simp only [fitMinY]
    linarith
  have hmaxY_init : n.position_y + 192 + 100 ≤ fitMaxY n rest := by
    have := le_foldl_max_init (fun m : NotePos => m.position_y + 192) (n.position_y + 192) rest
    simp only [fitMaxY]
    linarith
  have hW : (0:ℚ) < fitMaxX n rest - fitMinX n rest := by linarith
  have hH : (0:ℚ) < fitMaxY n rest - fitMinY n rest := by linarith
  have hzx : z ≤ cw / (fitMaxX n rest - fitMinX n rest) :=
    le_trans (min_le_left _ _) (min_le_left _ _)
  have hzy : z ≤ ch / (fitMaxY n rest - fitMinY n rest) :=
    le_trans (min_le_left _ _) (min_le_right _ _)
  have hzW : z * (fitMaxX n rest - fitMinX n rest) ≤ cw := (le_div_iff₀ hW).mp hzx
  have hzH : z * (fitMaxY n rest - fitMinY n rest) ≤ ch := (le_div_iff₀ hH).mp hzy
  -- per-note bounds on the box
  have hminX_mem : ∀ m ∈ n :: rest, fitMinX n rest ≤ m.position_x := by
    intro m hm
    rcases List.mem_cons.mp hm with rfl | h
    · linarith
    · have hfx : rest.foldl (fun a m => min a m.position_x) n.position_x ≤ m.position_x :=
        foldl_min_le_mem (fun m : NotePos => m.position_x) m rest n.position_x h
      simp only [fitMinX]
      linarith
  have hmaxX_mem : ∀ m ∈ n :: rest, m.position_x + 256 ≤ fitMaxX n rest := by
    intro m hm
    rcases List.mem_cons.mp hm with rfl | h
    · linarith
    · have hfx : m.position_x + 256
          ≤ rest.foldl (fun a m => max a (m.position_x + 256)) (n.position_x + 256) :=
        le_foldl_max_mem (fun m : NotePos => m.position_x + 256) m rest (n.position_x + 256) h
      simp only [fitMaxX]
      linarith
  have hminY_mem : ∀ m ∈ n :: rest, fitMinY n rest ≤ m.position_y := by
    intro m hm
    rcases List.mem_cons.mp hm with rfl | h
    · linarith
    · have hfy : rest.foldl (fun a m => min a m.position_y) n.position_y ≤ m.position_y :=
        foldl_min_le_mem (fun m : NotePos => m.position_y) m rest n.position_y h
      simp only [fitMinY]
      linarith
  have hmaxY_mem : ∀ m ∈ n :: rest, m.position_y + 192 ≤ fitMaxY n rest := by
    intro m hm
    rcases List.mem_cons.mp hm with rfl | h
    · linarith
    · have hfy : m.position_y + 192
          ≤ rest.foldl (fun a m => max a (m.position_y + 192)) (n.position_y + 192) :=
        le_foldl_max_mem (fun m : NotePos => m.position_y + 192) m rest (n.position_y + 192) h
      simp only [fitMaxY]
      linarith
  -- screen coordinates after the fit
  have hpanx : (fitToContent cw ch v (n :: rest)).panX = fitPanX cw ch n rest := rfl
  have hpany : (fitToContent cw ch v (n :: rest)).panY = fitPanY cw ch n rest := rfl
  clear_value z
  refine ⟨⟨hzoom.trans hz, (hzoom.trans hz).trans_le (hz ▸ hzmax), ?_, ?_, ?_, ?_, ?_, ?_, ?_⟩, rfl⟩
  · show 0 ≤ fitMinX n rest * (fitToContent cw ch v (n :: rest)).zoom
        + (fitToContent cw ch v (n :: rest)).panX
    rw [hzoom, hpanx, fitPanX, ← hz]
    linarith [hzW]
  · show 0 ≤ fitMinY n rest * (fitToContent cw ch v (n :: rest)).zoom
        + (fitToContent cw ch v (n :: rest)).panY
    rw [hzoom, hpany, fitPanY, ← hz]
    linarith [hzH]
  · show fitMaxX n rest * (fitToContent cw ch v (n :: rest)).zoom
        + (fitToContent cw ch v (n :: rest)).panX ≤ cw
    rw [hzoom, hpanx, fitPanX, ← hz]
    linarith [hzW]
  · show fitMaxY n rest * (fitToContent cw ch v (n :: rest)).zoom
        + (fitToContent cw ch v (n :: rest)).panY ≤ ch
    rw [hzoom, hpany, fitPanY, ← hz]
    linarith [hzH]
  · show fitMinX n rest * (fitToContent cw ch v (n :: rest)).zoom
        + (fitToContent cw ch v (n :: rest)).panX
      + (fitMaxX n rest * (fitToContent cw ch v (n :: rest)).zoom
        + (fitToContent cw ch v (n :: rest)).panX) = cw
    rw [hzoom, hpanx, fitPanX, ← hz]
    ring
  · show fitMinY n rest * (fitToContent cw ch v (n :: rest)).zoom
        + (fitToContent cw ch v (n :: rest)).panY
      + (fitMaxY n rest * (fitToContent cw ch v (n :: rest)).zoom
        + (fitToContent cw ch v (n :: rest)).panY) = ch
    rw [hzoom, hpany, fitPanY, ← hz]
    ring
  · intro m hm
    have h1 := hminX_mem m hm
    have h2 := hmaxX_mem m hm
    have h3 := hminY_mem m hm
    have h4 := hmaxY_mem m hm
    refine ⟨?_, ?_, ?_, ?_⟩
    · show 0 ≤ m.position_x * (fitToContent cw ch v (n :: rest)).zoom
          + (fitToContent cw ch v (n :: rest)).panX
      rw [hzoom, hpanx, fitPanX, ← hz]
      linarith [hzW, mul_le_mul_of_nonneg_right h1 hzpos.le]
    · show 0 ≤ m.position_y * (fitToContent cw ch v (n :: rest)).zoom
          + (fitToContent cw ch v (n :: rest)).panY
      rw [hzoom, hpany, fitPanY, ← hz]
      linarith [hzH, mul_le_mul_of_nonneg_right h3 hzpos.le]
    · show (m.position_x + 256) * (fitToContent cw ch v (n :: rest)).zoom
          + (fitToContent cw ch v (n :: rest)).panX ≤ cw
      rw [hzoom, hpanx, fitPanX, ← hz]
      linarith [hzW, mul_le_mul_of_nonneg_right h2 hzpos.le]
    · show (m.position_y + 192) * (fitToContent cw ch v (n :: rest)).zoom
          + (fitToContent cw ch v (n :: rest)).panY ≤ ch
      rw [hzoom, hpany, fitPanY, ← hz]
      linarith [hzH, mul_le_mul_of_nonneg_right h4 hzpos.le]

/-- Witness for C6 at a single note at the origin in a 1200 by 800 container:
the computed zoom is 1, which is not below `MIN_ZOOM`. -/
theorem C6_fit_to_content_witness :
    MIN_ZOOM ≤ fitZoom 1200 800 ⟨0, 0⟩ []
    ∧ (FitsAndCenters 1200 800 ⟨1, 0, 0⟩ ⟨0, 0⟩ []
        ∧ fitToContent 1200 800 ⟨1, 0, 0⟩ [] = resetZoom ⟨1, 0, 0⟩) :=
  ⟨by norm_num [fitZoom, fitMinX, fitMaxX, fitMinY, fitMaxY, MIN_ZOOM, MAX_ZOOM, min_def],
   C6_fit_to_content 1200 800 ⟨1, 0, 0⟩ ⟨0, 0⟩ []
     (by norm_num [fitZoom, fitMinX, fitMaxX, fitMinY, fitMaxY, MIN_ZOOM, MAX_ZOOM, min_def])⟩

/-- C6, counterexample to the claim as stated: two notes spread 23544 world
units apart in a 1200 by 800 container.  The computed zoom is 1/20, but
`setZoom` clamps the stored zoom up to `MIN_ZOOM = 1/10` while the pan was
computed for 1/20, so the stored zoom is not the claimed minimum and the
right note's box maps to screen x = 2385, outside the container width 1200. -/
theorem C6_fit_to_content_cex :
    (fitToContent 1200 800 ⟨1, 0, 0⟩ [⟨0, 0⟩, ⟨23544, 0⟩]).zoom = 1/10
    ∧ fitZoom 1200 800 ⟨0, 0⟩ [⟨23544, 0⟩] = 1/20
    ∧ ((1:ℚ)/10) ≠ 1/20
    ∧ (worldToScreen (fitToContent 1200 800 ⟨1, 0, 0⟩ [⟨0, 0⟩, ⟨23544, 0⟩])
        (23544 + 256) 0).x = 2385
    ∧ ¬((2385:ℚ) ≤ 1200) := by
  refine ⟨?_, ?_, by norm_num, ?_, by norm_num⟩
  · norm_num [fitToContent, fitZoom, fitMinX, fitMaxX, fitMinY, fitMaxY, setPan, setZoom,
      clampZoom, MIN_ZOOM, MAX_ZOOM, min_def, max_def]
  · norm_num [fitZoom, fitMinX, fitMaxX, fitMinY, fitMaxY, MIN_ZOOM, MAX_ZOOM,
      min_def, max_def]
  · norm_num [fitToContent, fitZoom, fitMinX, fitMaxX, fitMinY, fitMaxY, fitPanX, fitPanY,
      setPan, setZoom, clampZoom, worldToScreen, MIN_ZOOM, MAX_ZOOM, min_def, max_def]

end NotesApp
